import Mathlib

/-!
Verification of the copying engine declared in `cpp/include/cudf/copying.hpp`
(namespace `cudf::experimental`). The header is interface-only: each operation
is declared together with a behavioural contract in its doc comment. The
definitions below are a shallow embedding of those contracts: a column is a
type tag, a nullability flag and a list of (value, validity-bit) rows; a table
is a list of columns; fallible operations return `Except String`.
-/

namespace Cudf

/-- Modelled from the spec: the type/schema system is an external collaborator
(`cudf/types.hpp` is not under src); we keep a small tag set with a
fixed-width classification, enough for the checks the contracts mention. -/
inductive DType where
  | INT32
  | BOOL8
  | FLOAT64
  | STRING
deriving DecidableEq, Repr

/-- Fixed-width classification: every tag except STRING is fixed-width. -/
def DType.is_fixed_width : DType → Bool
  | .STRING => false
  | _ => true

/-- A row element: a value together with its validity bit (true = valid). -/
abbrev Row := Int × Bool

/-- Modelled from the spec: `column_view` (declared in
`cudf/column/column_view.hpp`, not under src) — a type tag, whether the
column carries a validity bitmask, and its rows as (value, validity) pairs. -/
structure column_view where
  dtype : DType
  nullable : Bool
  rows : List Row
deriving DecidableEq, Repr

/-- Modelled from the spec: `table_view` — an ordered sequence of columns. -/
abbrev table_view := List column_view

/-- Modelled from the spec: `scalar` (declared in `cudf/scalar/scalar.hpp`,
not under src) — one typed value with an independent validity flag. -/
structure scalar where
  dtype : DType
  value : Int
  is_valid : Bool
deriving DecidableEq, Repr

/-- Default row used by `List.getD`; never observed under in-range access. -/
def drow : Row := (0, true)

/-- Default column used by `List.getD`. -/
def dcol : column_view := { dtype := DType.INT32, nullable := false, rows := [] }

/-- Row count of a table: that of its first column (all columns agree by the
table invariant, stated as a hypothesis where needed). -/
def num_rows : table_view → Nat
  | [] => 0
  | c :: _ => c.rows.length

/-- All columns of `t` have exactly `n` rows. -/
def uniform_rows (t : table_view) (n : Nat) : Prop :=
  ∀ c ∈ t, c.rows.length = n

/-- The half-open slice `[b, e)` of a list. -/
def slice_list (xs : List α) (b e : Nat) : List α :=
  (xs.drop b).take (e - b)

/-- Modelled from the spec: the split worker behind `split` (implementation
absent from src; header contract at copying.hpp lines 333-361). Given the
previous boundary `prev` and the remaining boundaries, emits one view per
remaining interval, the last one extending to the end of `xs`. -/
def split_from (xs : List α) (prev : Nat) : List Nat → List (List α)
  | [] => [slice_list xs prev xs.length]
  | s :: ss => slice_list xs prev s :: split_from xs s ss

/-- Modelled from the spec: `split` on the row list of one column — view 0 is
`[0, splits[0])`, view j is `[splits[j-1], splits[j])`, the last view is
`[splits[m-1], size)`. -/
def split (xs : List α) (splits : List Nat) : List (List α) :=
  split_from xs 0 splits

/-- Modelled from the spec: the column overload of `split`
(copying.hpp lines 333-361): each output view keeps the input's type and
nullability and views one boundary interval of its rows. -/
def split_column (c : column_view) (splits : List Nat) : List column_view :=
  (split c.rows splits).map
    (fun rs => { dtype := c.dtype, nullable := c.nullable, rows := rs })

/-- Boundary list `splits` is valid for size `n`: non-decreasing and ≤ n. -/
def valid_splits (splits : List Nat) (n : Nat) : Prop :=
  List.Pairwise (· ≤ ·) splits ∧ ∀ s ∈ splits, s ≤ n

/-- `uniform_rows` is decidable, so witnesses can be checked by evaluation. -/
instance (t : table_view) (n : Nat) : Decidable (uniform_rows t n) := by
  unfold uniform_rows
  infer_instance

/-- `valid_splits` is decidable, so witnesses can be checked by evaluation. -/
instance (splits : List Nat) (n : Nat) : Decidable (valid_splits splits n) := by
  unfold valid_splits
  infer_instance

/-- Modelled from the spec: index normalization shared by gather and scatter
(copying.hpp lines 36-37 and 76-77): a negative map value `i` is interpreted
as `i + n` where `n` is the relevant table's row count. -/
def normalize (x : Int) (n : Nat) : Int :=
  if 0 ≤ x then x else x + n

/-- A map entry is in bounds when its normalized index lies in `[0, n)`. -/
def in_bounds (x : Int) (n : Nat) : Bool :=
  decide (0 ≤ normalize x n ∧ normalize x n < n)

/-- Modelled from the spec: per-column gather worker — row `i` of the result
is row `normalize (gmap[i])` of the source column, validity bit included. -/
def gather_column (c : column_view) (gmap : List Int) (n : Nat) : column_view :=
  { dtype := c.dtype, nullable := c.nullable,
    rows := gmap.map (fun x => c.rows.getD (normalize x n).toNat drow) }

/-- Modelled from the spec: `gather` (implementation absent from src; header
contract at copying.hpp lines 28-58). With `check_bounds` set, a map index
outside `[-n, n)` raises `cudf::logic_error`, modelled as `Except.error`. -/
def gather (source : table_view) (gmap : List Int) (check_bounds : Bool) :
    Except String table_view :=
  if check_bounds ∧
      ¬ gmap.all (fun x => in_bounds x (num_rows source)) then
    .error "gather map index out of bounds"
  else
    .ok (source.map (fun c => gather_column c gmap (num_rows source)))

/-- Index of the first element of the list satisfying `p`, if any. -/
def find_first (p : α → Bool) : List α → Option Nat
  | [] => none
  | x :: xs => if p x then some 0 else (find_first p xs).map (· + 1)

/-- Modelled from the spec: per-column scatter worker — output row
`normalize (smap[i])` receives source row `i`; every other row keeps the
target's row. With duplicate map indices the result is undefined; the model
takes the first matching map entry. -/
def scatter_rows (src tgt : List Row) (smap : List Int) (n : Nat) : List Row :=
  (List.range tgt.length).map (fun (j : Nat) =>
    match find_first (fun x => normalize x n == (j : Int)) smap with
    | some i => src.getD i drow
    | none => tgt.getD j drow)

/-- Modelled from the spec: `scatter` (implementation absent from src; header
contract at copying.hpp lines 60-100). Returns a copy of `target` in which
row `normalize (smap[i])` is replaced by row `i` of `source`; with
`check_bounds` set, a map index outside `[-n, n)` (n = target rows) raises. -/
def scatter (source : table_view) (smap : List Int) (target : table_view)
    (check_bounds : Bool) : Except String table_view :=
  if check_bounds ∧
      ¬ smap.all (fun x => in_bounds x (num_rows target)) then
    .error "scatter map index out of bounds"
  else
    .ok ((List.zip source target).map (fun p =>
      { dtype := p.2.dtype, nullable := p.1.nullable || p.2.nullable,
        rows := scatter_rows p.1.rows p.2.rows smap (num_rows target) }))

/-- A mask row selects the left operand when it is valid and true. -/
def mask_sel (m : Row) : Bool :=
  m.2 && m.1 == 1

/-- Number of valid true bits in a boolean mask (a null bit counts false). -/
def count_true (mask : List Row) : Nat :=
  (mask.filter mask_sel).length

/-- Modelled from the spec: the boolean-mask scatter worker — walking the
mask, the k-th true bit writes row k of the input; other positions copy the
target row. -/
def bms_rows : List Row → List Row → List Row → List Row
  | [], _, _ => []
  | _ :: _, _, [] => []
  | m :: ms, src, t :: ts =>
    if mask_sel m then src.headD drow :: bms_rows ms (src.drop 1) ts
    else t :: bms_rows ms src ts

/-- Modelled from the spec: `boolean_mask_scatter` (implementation absent
from src; header contract at copying.hpp lines 586-622), with the documented
`cudf::logic_error` preconditions checked up front. -/
def boolean_mask_scatter (input target : table_view) (mask : column_view) :
    Except String table_view :=
  if input.length ≠ target.length then
    .error "column count mismatch"
  else if ¬ (List.zip input target).all (fun p => p.1.dtype == p.2.dtype) then
    .error "column type mismatch"
  else if mask.dtype ≠ DType.BOOL8 then
    .error "mask must be of boolean type"
  else if mask.rows.length ≠ num_rows target then
    .error "mask size must equal target size"
  else if count_true mask.rows > num_rows input then
    .error "mask true count exceeds input rows"
  else
    .ok ((List.zip input target).map (fun p =>
      { dtype := p.2.dtype, nullable := p.1.nullable || p.2.nullable,
        rows := bms_rows mask.rows p.1.rows p.2.rows }))

/-- Modelled from the spec: the column/column overload of `copy_if_else`
(copying.hpp lines 456-479): output[i] = mask valid-and-true ? lhs[i] :
rhs[i], with type, length and mask checks raising `cudf::logic_error`. -/
def copy_if_else_cc (lhs rhs mask : column_view) : Except String column_view :=
  if lhs.dtype ≠ rhs.dtype then
    .error "lhs and rhs type mismatch"
  else if lhs.rows.length ≠ rhs.rows.length then
    .error "lhs and rhs length mismatch"
  else if mask.dtype ≠ DType.BOOL8 then
    .error "mask must be of boolean type"
  else if mask.rows.length ≠ lhs.rows.length then
    .error "mask length mismatch"
  else
    .ok
      { dtype := lhs.dtype, nullable := lhs.nullable || rhs.nullable,
        rows := (List.range lhs.rows.length).map (fun i =>
          if mask_sel (mask.rows.getD i (0, false)) then lhs.rows.getD i drow
          else rhs.rows.getD i drow) }

/-- Modelled from the spec: the scalar/column overload of `copy_if_else`
(copying.hpp lines 516-538): output[i] = mask valid-and-true ? lhs : rhs[i]. -/
def copy_if_else_sc (lhs : scalar) (rhs mask : column_view) :
    Except String column_view :=
  if lhs.dtype ≠ rhs.dtype then
    .error "lhs and rhs type mismatch"
  else if mask.dtype ≠ DType.BOOL8 then
    .error "mask must be of boolean type"
  else if mask.rows.length ≠ rhs.rows.length then
    .error "mask length mismatch"
  else
    .ok
      { dtype := rhs.dtype, nullable := !lhs.is_valid || rhs.nullable,
        rows := (List.range rhs.rows.length).map (fun i =>
          if mask_sel (mask.rows.getD i (0, false)) then
            (lhs.value, lhs.is_valid)
          else rhs.rows.getD i drow) }

/-- Modelled from the spec: the column/scalar overload of `copy_if_else`
(copying.hpp lines 540-562): output[i] = mask valid-and-true ? lhs[i] : rhs. -/
def copy_if_else_cs (lhs : column_view) (rhs : scalar) (mask : column_view) :
    Except String column_view :=
  if lhs.dtype ≠ rhs.dtype then
    .error "lhs and rhs type mismatch"
  else if mask.dtype ≠ DType.BOOL8 then
    .error "mask must be of boolean type"
  else if mask.rows.length ≠ lhs.rows.length then
    .error "mask length mismatch"
  else
    .ok
      { dtype := lhs.dtype, nullable := lhs.nullable || !rhs.is_valid,
        rows := (List.range lhs.rows.length).map (fun i =>
          if mask_sel (mask.rows.getD i (0, false)) then lhs.rows.getD i drow
          else (rhs.value, rhs.is_valid)) }

/-- Modelled from the spec: the scalar/scalar overload of `copy_if_else`
(copying.hpp lines 564-584). Its documented contract checks only that the
mask is boolean-typed; the output's length is the mask's length. -/
def copy_if_else_ss (lhs rhs : scalar) (mask : column_view) :
    Except String column_view :=
  if mask.dtype ≠ DType.BOOL8 then
    .error "mask must be of boolean type"
  else
    .ok
      { dtype := lhs.dtype, nullable := !lhs.is_valid || !rhs.is_valid,
        rows := mask.rows.map (fun m =>
          if mask_sel m then (lhs.value, lhs.is_valid)
          else (rhs.value, rhs.is_valid)) }

/-- A column carries nulls when it is nullable and some row's bit is unset. -/
def has_nulls (c : column_view) : Bool :=
  c.nullable && c.rows.any (fun r => !r.2)

/-- Modelled from the spec: `shift` (implementation absent from src; header
contract at copying.hpp lines 481-514): output[i] = input[i - offset] when
that index is in range, else the fill value; the output is nullable when the
input is nullable or the fill value is invalid. -/
def shift (input : column_view) (offset : Int) (fill_value : scalar) :
    Except String column_view :=
  if ¬ input.dtype.is_fixed_width then
    .error "shift supports only fixed-width types"
  else if fill_value.dtype ≠ input.dtype then
    .error "fill value type must match input type"
  else
    .ok
      { dtype := input.dtype,
        nullable := input.nullable || !fill_value.is_valid,
        rows := (List.range input.rows.length).map (fun (i : Nat) =>
          if 0 ≤ (i : Int) - offset ∧
              (i : Int) - offset < input.rows.length then
            input.rows.getD ((i : Int) - offset).toNat drow
          else (fill_value.value, fill_value.is_valid)) }

/-- Modelled from the spec: `copy_range_in_place` (implementation absent from
src; header contract at copying.hpp lines 201-236). The in-place mutation is
modelled by returning the mutated target; every documented
`cudf::logic_error` precondition is checked first. -/
def copy_range_in_place (source target : column_view)
    (source_begin source_end target_begin : Int) :
    Except String column_view :=
  if ¬ source.dtype.is_fixed_width then
    .error "memory reallocation required"
  else if source_begin > source_end ∨ source_begin < 0 ∨
      source_end > (source.rows.length : Int) ∨ target_begin < 0 ∨
      target_begin + (source_end - source_begin) >
        (target.rows.length : Int) then
    .error "invalid range"
  else if source.dtype ≠ target.dtype then
    .error "type mismatch"
  else if has_nulls source ∧ ¬ target.nullable then
    .error "target is not nullable"
  else
    .ok
      { target with
        rows := (List.range target.rows.length).map (fun (j : Nat) =>
          if target_begin ≤ (j : Int) ∧
              (j : Int) < target_begin + (source_end - source_begin) then
            source.rows.getD (source_begin + ((j : Int) - target_begin)).toNat
              drow
          else target.rows.getD j drow) }

/-- Byte offset of column `c`'s region inside a packed partition buffer: the
summed footprint of the regions packed before it. -/
def pack_offset (pieces : List (List α)) (c : Nat) : Nat :=
  ((pieces.take c).map List.length).sum

/-- Modelled from the spec: `contiguous_split_result` (copying.hpp lines
396-411) — one partition's table view plus the single backing buffer
(`all_data`) that owns all of the partition's data. -/
structure contiguous_split_result where
  table : table_view
  all_data : List Row
deriving DecidableEq, Repr

/-- Modelled from the spec: `contiguous_split` (implementation absent from
src; header contract at copying.hpp lines 413-454). For each partition, the
per-column sub-ranges chosen by `split` are deep-copied into one freshly
built buffer, and the partition's column views are offset slices into that
buffer rather than references into the input. -/
def contiguous_split (input : table_view) (splits : List Nat) :
    List contiguous_split_result :=
  (List.range (splits.length + 1)).map (fun p =>
    let pieces := input.map (fun c => (split c.rows splits).getD p [])
    let buf := pieces.flatten
    { all_data := buf,
      table := (List.range input.length).map (fun c =>
        { dtype := (input.getD c dcol).dtype,
          nullable := (input.getD c dcol).nullable,
          rows := slice_list buf (pack_offset pieces c)
            (pack_offset pieces c + (pieces.getD c []).length) }) })

/-- Default contiguous-split result used by `List.getD`. -/
def dres : contiguous_split_result := { table := [], all_data := [] }

/-- Sample three-row INT32 column holding 10, 20, 30, all valid. -/
def colA : column_view :=
  { dtype := DType.INT32, nullable := false,
    rows := [(10, true), (20, true), (30, true)] }

/-- Sample five-row INT32 column holding 2, 2, 3, 4, 4, all valid. -/
def colB : column_view :=
  { dtype := DType.INT32, nullable := false,
    rows := [(2, true), (2, true), (3, true), (4, true), (4, true)] }

/-- Sample two-row INT32 column holding 1, 9, all valid. -/
def colC : column_view :=
  { dtype := DType.INT32, nullable := false,
    rows := [(1, true), (9, true)] }

/-- Sample ten-row INT32 column holding the even values 10..28. -/
def colTen : column_view :=
  { dtype := DType.INT32, nullable := false,
    rows := [(10, true), (12, true), (14, true), (16, true), (18, true),
      (20, true), (22, true), (24, true), (26, true), (28, true)] }

/-- Sample ten-row INT32 column holding the even values 50..68. -/
def colFifty : column_view :=
  { dtype := DType.INT32, nullable := false,
    rows := [(50, true), (52, true), (54, true), (56, true), (58, true),
      (60, true), (62, true), (64, true), (66, true), (68, true)] }

/-- Sample three-row INT32 column holding 1, 2, 3, all valid. -/
def colL : column_view :=
  { dtype := DType.INT32, nullable := false,
    rows := [(1, true), (2, true), (3, true)] }

/-- Sample three-row INT32 column holding 10, 20, 30, all valid. -/
def colR : column_view :=
  { dtype := DType.INT32, nullable := false,
    rows := [(10, true), (20, true), (30, true)] }

/-- Sample boolean mask: true, false, null. -/
def maskTFN : column_view :=
  { dtype := DType.BOOL8, nullable := true,
    rows := [(1, true), (0, true), (0, false)] }

/-- Sample boolean mask of five rows with three valid true bits. -/
def maskFive : column_view :=
  { dtype := DType.BOOL8, nullable := false,
    rows := [(1, true), (1, true), (1, true), (0, true), (0, true)] }

/-- Sample five-row INT32 column holding 0, 1, 2, 3, 4, all valid. -/
def colShift : column_view :=
  { dtype := DType.INT32, nullable := false,
    rows := [(0, true), (1, true), (2, true), (3, true), (4, true)] }

/-- Sample valid INT32 scalar holding 7. -/
def scal7 : scalar := { dtype := DType.INT32, value := 7, is_valid := true }

/-- Sample valid INT32 scalar holding 8. -/
def scal8 : scalar := { dtype := DType.INT32, value := 8, is_valid := true }

/-- Sample invalid (null) INT32 scalar. -/
def scalNull : scalar :=
  { dtype := DType.INT32, value := 0, is_valid := false }

/-- Sample invalid FLOAT64 scalar, used to show the scalar/scalar overload
performs no type-agreement check. -/
def scalF : scalar :=
  { dtype := DType.FLOAT64, value := 8, is_valid := false }

theorem length_split_from (xs : List α) (prev : Nat) (ss : List Nat) :
    (split_from xs prev ss).length = ss.length + 1 := by
  induction ss generalizing prev with
  | nil => rfl
  | cons s ss ih => simp [split_from, ih]

theorem join_split_from (xs : List α) (prev : Nat) (ss : List Nat)
    (hprev : prev ≤ xs.length)
    (hchain : (prev :: ss).Chain' (· ≤ ·))
    (hle : ∀ s ∈ ss, s ≤ xs.length) :
    (split_from xs prev ss).flatten = xs.drop prev := by
  induction ss generalizing prev with
  | nil =>
    simp only [split_from, List.flatten_cons, List.flatten_nil,
      List.append_nil, slice_list]
    exact List.take_of_length_le (by simp)
  | cons s ss ih =>
    have hps : prev ≤ s := (List.chain'_cons.mp hchain).1
    have hsn : s ≤ xs.length := hle s (by simp)
    have hchain' : (s :: ss).Chain' (· ≤ ·) := (List.chain'_cons.mp hchain).2
    have hrest : (split_from xs s ss).flatten = xs.drop s :=
      ih s hsn hchain' (fun x hx => hle x (List.mem_cons_of_mem _ hx))
    simp only [split_from, List.flatten_cons, hrest, slice_list]
    have hdd : xs.drop s = (xs.drop prev).drop (s - prev) := by
      rw [List.drop_drop]
      congr 1
      omega
    rw [hdd, List.take_append_drop]

theorem getD_split_from (xs : List α) (prev : Nat) (ss : List Nat)
    (j : Nat) (hj : j ≤ ss.length) :
    (split_from xs prev ss).getD j [] =
      slice_list xs
        (if j = 0 then prev else ss.getD (j - 1) 0)
        (if j = ss.length then xs.length else ss.getD j 0) := by
  induction ss generalizing prev j with
  | nil =>
    have hj0 : j = 0 := Nat.le_zero.mp hj
    subst hj0
    simp [split_from]
  | cons s ss ih =>
    cases j with
    | zero => simp [split_from]
    | succ j' =>
      have hj' : j' ≤ ss.length := by simpa using hj
      have harg1 : (if j' + 1 = 0 then prev else (s :: ss).getD (j' + 1 - 1) 0)
          = (if j' = 0 then s else ss.getD (j' - 1) 0) := by
        cases j' with
        | zero => simp
        | succ k => simp
      have harg2 :
          (if j' + 1 = (s :: ss).length then xs.length
            else (s :: ss).getD (j' + 1) 0)
          = (if j' = ss.length then xs.length else ss.getD j' 0) := by
        rcases eq_or_ne j' ss.length with h | h
        · subst h; simp
        · rw [if_neg (by simp only [List.length_cons]; omega), if_neg h,
            List.getD_cons_succ]
      calc (split_from xs prev (s :: ss)).getD (j' + 1) []
          = (split_from xs s ss).getD j' [] := by simp [split_from]
        _ = slice_list xs (if j' = 0 then s else ss.getD (j' - 1) 0)
              (if j' = ss.length then xs.length else ss.getD j' 0) :=
            ih s j' hj'
        _ = _ := by rw [harg1, harg2]

theorem getD_range_map (f : Nat → β) (n j : Nat) (hj : j < n) (d : β) :
    ((List.range n).map f).getD j d = f j := by
  rw [List.getD_eq_getElem?_getD, List.getElem?_map, List.getElem?_range hj]
  rfl

theorem getD_map_of_lt (f : α → β) (l : List α) (j : Nat) (hj : j < l.length)
    (d : β) (d' : α) : (l.map f).getD j d = f (l.getD j d') := by
  induction l generalizing j with
  | nil => simp at hj
  | cons x xs ih =>
    cases j with
    | zero => simp
    | succ k =>
      simp only [List.map_cons, List.getD_cons_succ]
      exact ih k (by simpa using hj)

theorem getD_zip_of_lt (a : List α) (b : List β) (c : Nat)
    (hc : c < min a.length b.length) (d1 : α) (d2 : β) :
    (List.zip a b).getD c (d1, d2) = (a.getD c d1, b.getD c d2) := by
  induction a generalizing b c with
  | nil => simp at hc
  | cons x xs ih =>
    cases b with
    | nil => simp at hc
    | cons y ys =>
      cases c with
      | zero => simp [List.zip]
      | succ k =>
        simp only [List.zip_cons_cons, List.getD_cons_succ]
        exact ih ys k (by simp at hc ⊢; omega)

theorem slice_flatten_pack (pieces : List (List α)) (c : Nat)
    (hc : c < pieces.length) :
    slice_list pieces.flatten (pack_offset pieces c)
      (pack_offset pieces c + (pieces.getD c []).length) =
      pieces.getD c [] := by
  induction pieces generalizing c with
  | nil => simp at hc
  | cons x xs ih =>
    cases c with
    | zero =>
      simp only [pack_offset, List.take_zero, List.map_nil, List.sum_nil,
        List.getD_cons_zero, List.flatten_cons, slice_list, List.drop_zero,
        Nat.zero_add, Nat.sub_zero]
      exact List.take_left x xs.flatten
    | succ k =>
      have hoff : pack_offset (x :: xs) (k + 1) = x.length + pack_offset xs k := by
        simp [pack_offset, List.take_succ_cons]
      have hk : k < xs.length := by simpa using hc
      have hdrop :
          (x :: xs).flatten.drop (x.length + pack_offset xs k) =
            xs.flatten.drop (pack_offset xs k) := by
        rw [List.flatten_cons, ← List.drop_drop, List.drop_left]
      simp only [hoff, List.getD_cons_succ, slice_list, hdrop]
      have := ih k hk
      simp only [slice_list] at this
      have harith :
          x.length + pack_offset xs k + (xs.getD k []).length -
            (x.length + pack_offset xs k) =
          pack_offset xs k + (xs.getD k []).length - pack_offset xs k := by
        omega
      rw [harith]
      exact this

/-- Claim C8: for every input of size n and valid splits list of m
non-decreasing boundaries each at most n, `split` produces exactly m+1
adjacent, non-overlapping views — view 0 = [0, splits[0]), view j =
[splits[j-1], splits[j]), last view = [splits[m-1], n) — and the
concatenation of these views reconstructs the input exactly. -/
theorem split_spec (c : column_view) (splits : List Nat)
    (hv : valid_splits splits c.rows.length) :
    (split_column c splits).length = splits.length + 1 ∧
    (∀ j ≤ splits.length,
      (split_column c splits).getD j dcol =
        { dtype := c.dtype, nullable := c.nullable,
          rows := slice_list c.rows
            (if j = 0 then 0 else splits.getD (j - 1) 0)
            (if j = splits.length then c.rows.length
              else splits.getD j 0) }) ∧
    ((split_column c splits).map column_view.rows).flatten = c.rows := by
  obtain ⟨hpair, hle⟩ := hv
  have hchain : splits.Chain' (· ≤ ·) := hpair.chain'
  have hlen : (split c.rows splits).length = splits.length + 1 :=
    length_split_from c.rows 0 splits
  refine ⟨?_, ?_, ?_⟩
  · simp [split_column, hlen]
  · intro j hj
    have hjlt : j < (split c.rows splits).length := by omega
    rw [split_column, getD_map_of_lt _ _ j hjlt dcol []]
    rw [show split c.rows splits = split_from c.rows 0 splits from rfl,
      getD_split_from c.rows 0 splits j hj]
  · have hmap : (split_column c splits).map column_view.rows =
        split c.rows splits := by
      rw [split_column, List.map_map]
      exact List.map_id _
    rw [hmap]
    exact join_split_from c.rows 0 splits (Nat.zero_le _)
      (List.chain'_cons'.mpr ⟨fun y _ => Nat.zero_le y, hchain⟩) hle

/-- Claim C1: for every table T and every valid splits list, partition i of
`contiguous_split` T splits is equal to `split` T splits at i
element-for-element and validity-bit-for-bit, even though the
contiguous_split partitions live in a freshly built backing buffer distinct
from T's row storage. -/
theorem contiguous_split_equiv (t : table_view) (splits : List Nat) (n : Nat)
    (hu : uniform_rows t n) (hv : valid_splits splits n)
    (p : Nat) (hp : p ≤ splits.length) (c : Nat) (hc : c < t.length) :
    (contiguous_split t splits).length = splits.length + 1 ∧
    ((contiguous_split t splits).getD p dres).table.getD c dcol =
      (split_column (t.getD c dcol) splits).getD p dcol := by
  have hplen : p < splits.length + 1 := by omega
  refine ⟨by simp [contiguous_split], ?_⟩
  rw [contiguous_split, getD_range_map _ _ p hplen dres]
  set pieces := t.map (fun c => (split c.rows splits).getD p []) with hpieces
  have hpl : pieces.length = t.length := by simp [hpieces]
  rw [getD_range_map _ _ c hc dcol]
  have hpiece : pieces.getD c [] =
      (split (t.getD c dcol).rows splits).getD p [] := by
    rw [hpieces, getD_map_of_lt _ _ c hc [] dcol]
  have hslice := slice_flatten_pack pieces c (by omega)
  rw [hslice, hpiece]
  have hsplen : p < (split (t.getD c dcol).rows splits).length := by
    rw [show split (t.getD c dcol).rows splits =
      split_from (t.getD c dcol).rows 0 splits from rfl,
      length_split_from]
    omega
  rw [split_column, getD_map_of_lt _ _ p hsplen dcol []]

theorem find_first_eq_none (p : α → Bool) (l : List α) :
    find_first p l = none ↔ ∀ x ∈ l, p x = false := by
  induction l with
  | nil => simp [find_first]
  | cons x xs ih =>
    simp only [find_first]
    by_cases hx : p x = true
    · rw [if_pos hx]
      constructor
      · intro h
        exact Option.noConfusion h
      · intro h
        rw [h x (List.mem_cons_self x xs)] at hx
        exact Bool.noConfusion hx
    · have hx' : p x = false := by simpa using hx
      rw [if_neg hx, Option.map_eq_none', ih]
      constructor
      · intro h y hy
        rcases List.mem_cons.mp hy with rfl | hy'
        · exact hx'
        · exact h y hy'
      · intro h y hy
        exact h y (List.mem_cons_of_mem _ hy)

theorem find_first_eq_some (p : α → Bool) (l : List α) (i : Nat) (d : α)
    (hi : i < l.length) (hp : p (l.getD i d) = true)
    (hmin : ∀ k < i, p (l.getD k d) = false) :
    find_first p l = some i := by
  induction l generalizing i with
  | nil => simp at hi
  | cons x xs ih =>
    cases i with
    | zero =>
      simp only [List.getD_cons_zero] at hp
      simp [find_first, hp]
    | succ k =>
      have hx : p x = false := by
        have := hmin 0 (Nat.succ_pos k)
        simpa using this
      have hk : k < xs.length := by simpa using hi
      have hpk : p (xs.getD k d) = true := by simpa using hp
      have hmink : ∀ m < k, p (xs.getD m d) = false := by
        intro m hm
        have := hmin (m + 1) (by omega)
        simpa using this
      simp [find_first, hx, ih k hk hpk hmink]

theorem nodup_getD_ne (l : List α) (h : l.Nodup) (i k : Nat) (d : α)
    (hi : i < l.length) (hk : k < l.length) (hik : i ≠ k) :
    l.getD i d ≠ l.getD k d := by
  rw [List.getD_eq_getElem l d hi, List.getD_eq_getElem l d hk]
  intro he
  exact hik ((List.Nodup.getElem_inj_iff h).mp he)

theorem getD_mem_of_lt (l : List α) (c : Nat) (hc : c < l.length) (d : α) :
    l.getD c d ∈ l := by
  rw [List.getD_eq_getElem l d hc]
  exact List.getElem_mem hc

/-- Claim C2: for every source table with n rows and every non-nullable
integral gather map, gather returns a new table with exactly len(map) rows
in which row i equals row normalize(map[i]) of the source, including its
validity bit, where normalize(x) = x when x ≥ 0 and x + n otherwise. -/
theorem gather_spec (t : table_view) (gmap : List Int) (cb : Bool) (n : Nat)
    (hu : uniform_rows t n) (hn : num_rows t = n)
    (hin : ∀ x ∈ gmap, in_bounds x n = true) :
    ∃ res, gather t gmap cb = .ok res ∧
      res.length = t.length ∧
      ∀ c < t.length,
        (res.getD c dcol).dtype = (t.getD c dcol).dtype ∧
        (res.getD c dcol).nullable = (t.getD c dcol).nullable ∧
        (res.getD c dcol).rows.length = gmap.length ∧
        ∀ i < gmap.length,
          (res.getD c dcol).rows.getD i drow =
            (t.getD c dcol).rows.getD
              (normalize (gmap.getD i 0) n).toNat drow := by
  subst hn
  have hall : gmap.all (fun x => in_bounds x (num_rows t)) = true :=
    List.all_eq_true.mpr hin
  refine ⟨t.map (fun c => gather_column c gmap (num_rows t)), ?_, by simp, ?_⟩
  · rw [gather, if_neg (fun h => absurd hall h.2)]
  · intro c hc
    rw [getD_map_of_lt _ _ c hc dcol dcol]
    refine ⟨rfl, rfl, by simp [gather_column], ?_⟩
    intro i hi
    rw [gather_column]
    exact getD_map_of_lt _ _ i hi drow 0

/-- Claim C3: for gather and for scatter called with check_bounds = true, if
any map entry's normalized index falls outside [0, n) — n being the source
row count for gather and the target row count for scatter — the call raises
a contract violation (an error, so no output is produced). -/
theorem gather_scatter_bounds_error
    (t src tgt : table_view) (gmap smap : List Int)
    (hg : ∃ x ∈ gmap, in_bounds x (num_rows t) = false)
    (hs : ∃ x ∈ smap, in_bounds x (num_rows tgt) = false) :
    (∀ res, gather t gmap true ≠ .ok res) ∧
    (∀ res, scatter src smap tgt true ≠ .ok res) := by
  constructor
  · intro res
    rw [gather]
    have : ¬ gmap.all (fun x => in_bounds x (num_rows t)) := by
      obtain ⟨x, hx, hfalse⟩ := hg
      simp only [List.all_eq_true, not_forall]
      exact ⟨x, hx, by simp [hfalse]⟩
    simp [this]
  · intro res
    rw [scatter]
    have : ¬ smap.all (fun x => in_bounds x (num_rows tgt)) := by
      obtain ⟨x, hx, hfalse⟩ := hs
      simp only [List.all_eq_true, not_forall]
      exact ⟨x, hx, by simp [hfalse]⟩
    simp [this]

/-- Claim C4: for every source table, target table and non-nullable integral
scatter map with no duplicate normalized indices and len(map) at most the
source's row count, scatter returns a new table that is a copy of target
except that row normalize(map[i]) equals row i of source for every i; all
rows not named by the map equal the corresponding target rows. -/
theorem scatter_spec (source target : table_view) (smap : List Int)
    (cb : Bool) (n : Nat)
    (hn : num_rows target = n) (hu : uniform_rows target n)
    (hnd : (smap.map (fun x => normalize x n)).Nodup)
    (hin : ∀ x ∈ smap, in_bounds x n = true)
    (hlen : smap.length ≤ num_rows source) :
    ∃ res, scatter source smap target cb = .ok res ∧
      res.length = min source.length target.length ∧
      ∀ c < res.length,
        (res.getD c dcol).rows.length = n ∧
        (∀ i < smap.length,
          (res.getD c dcol).rows.getD
              (normalize (smap.getD i 0) n).toNat drow =
            (source.getD c dcol).rows.getD i drow) ∧
        (∀ j < n,
          (∀ i < smap.length, normalize (smap.getD i 0) n ≠ (j : Int)) →
          (res.getD c dcol).rows.getD j drow =
            (target.getD c dcol).rows.getD j drow) := by
  subst hn
  have hall : smap.all (fun x => in_bounds x (num_rows target)) = true :=
    List.all_eq_true.mpr hin
  refine ⟨(List.zip source target).map (fun p =>
      { dtype := p.2.dtype, nullable := p.1.nullable || p.2.nullable,
        rows := scatter_rows p.1.rows p.2.rows smap (num_rows target) }),
    ?_, by simp, ?_⟩
  · rw [scatter, if_neg (fun h => absurd hall h.2)]
  · intro c hc
    have hc' : c < min source.length target.length := by simpa using hc
    rw [getD_map_of_lt _ _ c (by simpa using hc) dcol (dcol, dcol),
      getD_zip_of_lt source target c hc' dcol dcol]
    dsimp only
    have htlen : (target.getD c dcol).rows.length = num_rows target := by
      apply hu
      exact getD_mem_of_lt target c (by omega) dcol
    have hrange : scatter_rows (source.getD c dcol).rows
        (target.getD c dcol).rows smap (num_rows target) =
        (List.range (num_rows target)).map (fun (j : Nat) =>
          match find_first
              (fun x => normalize x (num_rows target) == (j : Int)) smap with
          | some i => (source.getD c dcol).rows.getD i drow
          | none => (target.getD c dcol).rows.getD j drow) := by
      rw [scatter_rows, htlen]
    refine ⟨?_, ?_, ?_⟩
    · rw [hrange]
      simp
    · intro i hi
      have hbx : in_bounds (smap.getD i 0) (num_rows target) = true :=
        hin _ (getD_mem_of_lt smap i hi 0)
      have hb : 0 ≤ normalize (smap.getD i 0) (num_rows target) ∧
          normalize (smap.getD i 0) (num_rows target) < num_rows target := by
        simpa [in_bounds] using hbx
      have hjn : (normalize (smap.getD i 0) (num_rows target)).toNat <
          num_rows target := by omega
      rw [hrange, getD_range_map _ _ _ hjn drow]
      have hcast :
          (((normalize (smap.getD i 0) (num_rows target)).toNat : Int)) =
            normalize (smap.getD i 0) (num_rows target) :=
        Int.toNat_of_nonneg hb.1
      have hfind : find_first
          (fun x => normalize x (num_rows target) ==
            ((normalize (smap.getD i 0) (num_rows target)).toNat : Int))
          smap = some i := by
        apply find_first_eq_some _ _ i 0 hi
        · simp only [hcast, beq_self_eq_true]
        · intro k hk
          have hkne := nodup_getD_ne
            (smap.map (fun x => normalize x (num_rows target))) hnd k i 0
            (by simp only [List.length_map]; omega)
            (by simp only [List.length_map]; exact hi)
            (by omega)
          rw [getD_map_of_lt _ _ k (by omega) 0 0,
            getD_map_of_lt _ _ i hi 0 0] at hkne
          simp only [hcast, beq_eq_false_iff_ne, ne_eq]
          exact hkne
      rw [hfind]
    · intro j hj hnone
      rw [hrange, getD_range_map _ _ _ hj drow]
      have hfind : find_first
          (fun x => normalize x (num_rows target) == (j : Int)) smap =
          none := by
        rw [find_first_eq_none]
        intro x hx
        obtain ⟨i, hi, hxi⟩ := List.getElem_of_mem hx
        have hne := hnone i hi
        rw [← List.getD_eq_getElem smap 0 hi] at hxi
        subst hxi
        exact beq_eq_false_iff_ne.mpr hne
      rw [hfind]

/-- Claim C5: boolean_mask_scatter raises a contract violation — it does not
truncate or produce partial output — whenever the number of true bits in the
mask exceeds the input's row count, and likewise raises when the mask is not
boolean-typed or its length differs from the target's row count. -/
theorem boolean_mask_scatter_errors (input target : table_view)
    (mask : column_view)
    (h : count_true mask.rows > num_rows input ∨
      mask.dtype ≠ DType.BOOL8 ∨
      mask.rows.length ≠ num_rows target) :
    ∀ res, boolean_mask_scatter input target mask ≠ .ok res := by
  intro res he
  rw [boolean_mask_scatter] at he
  by_cases h1 : input.length ≠ target.length
  · rw [if_pos h1] at he
    exact Except.noConfusion he
  · rw [if_neg h1] at he
    by_cases h2 : ¬ (List.zip input target).all
        (fun p => p.1.dtype == p.2.dtype)
    · rw [if_pos h2] at he
      exact Except.noConfusion he
    · rw [if_neg h2] at he
      by_cases h3 : mask.dtype ≠ DType.BOOL8
      · rw [if_pos h3] at he
        exact Except.noConfusion he
      · rw [if_neg h3] at he
        by_cases h4 : mask.rows.length ≠ num_rows target
        · rw [if_pos h4] at he
          exact Except.noConfusion he
        · rw [if_neg h4] at he
          by_cases h5 : count_true mask.rows > num_rows input
          · rw [if_pos h5] at he
            exact Except.noConfusion he
          · rcases h with hc | ht | hl
            · exact h5 hc
            · exact h3 ht
            · exact h4 hl

/-- Claim C6: for every pair of same-typed, same-length operands and every
boolean mask of matching length, copy_if_else produces output[i] = left(i)
when mask bit i is both valid and true, and right(i) otherwise; a null mask
entry selects the right operand exactly as a false entry does, across all
four operand shapes (column/column, scalar/column, column/scalar,
scalar/scalar). -/
theorem copy_if_else_spec (lc rc mask : column_view) (ls rs : scalar)
    (n : Nat)
    (hlr : lc.dtype = rc.dtype) (hsl : ls.dtype = lc.dtype)
    (hsr : rs.dtype = lc.dtype) (hss : ls.dtype = rs.dtype)
    (hln : lc.rows.length = n) (hrn : rc.rows.length = n)
    (hm : mask.dtype = DType.BOOL8) (hmn : mask.rows.length = n) :
    (∃ out, copy_if_else_cc lc rc mask = .ok out ∧ out.rows.length = n ∧
      ∀ i < n, out.rows.getD i drow =
        if mask_sel (mask.rows.getD i (0, false)) then lc.rows.getD i drow
        else rc.rows.getD i drow) ∧
    (∃ out, copy_if_else_sc ls rc mask = .ok out ∧ out.rows.length = n ∧
      ∀ i < n, out.rows.getD i drow =
        if mask_sel (mask.rows.getD i (0, false)) then
          (ls.value, ls.is_valid)
        else rc.rows.getD i drow) ∧
    (∃ out, copy_if_else_cs lc rs mask = .ok out ∧ out.rows.length = n ∧
      ∀ i < n, out.rows.getD i drow =
        if mask_sel (mask.rows.getD i (0, false)) then lc.rows.getD i drow
        else (rs.value, rs.is_valid)) ∧
    (∃ out, copy_if_else_ss ls rs mask = .ok out ∧ out.rows.length = n ∧
      ∀ i < n, out.rows.getD i drow =
        if mask_sel (mask.rows.getD i (0, false)) then
          (ls.value, ls.is_valid)
        else (rs.value, rs.is_valid)) := by
  refine ⟨?_, ?_, ?_, ?_⟩
  · rw [copy_if_else_cc, if_neg (by simp [hlr]), if_neg (by omega),
      if_neg (by simp [hm]), if_neg (by omega)]
    refine ⟨_, rfl, by simp [hln], ?_⟩
    intro i hi
    dsimp only
    rw [getD_range_map _ _ i (by omega) drow]
  · rw [copy_if_else_sc, if_neg (by simp [hsl, hlr]),
      if_neg (by simp [hm]), if_neg (by omega)]
    refine ⟨_, rfl, by simp [hrn], ?_⟩
    intro i hi
    dsimp only
    rw [getD_range_map _ _ i (by omega) drow]
  · rw [copy_if_else_cs, if_neg (by simp [hsr]),
      if_neg (by simp [hm]), if_neg (by omega)]
    refine ⟨_, rfl, by simp [hln], ?_⟩
    intro i hi
    dsimp only
    rw [getD_range_map _ _ i (by omega) drow]
  · rw [copy_if_else_ss, if_neg (by simp [hm])]
    refine ⟨_, rfl, by simp [hmn], ?_⟩
    intro i hi
    dsimp only
    exact getD_map_of_lt _ _ i (by omega) drow (0, false)

/-- Claim C7: for every fixed-width input column of n rows, every offset and
every fill_value of the input's type, shift returns a column of n rows where
output[i] = input[i-offset] when 0 ≤ i-offset < n and fill_value otherwise;
the output is nullable exactly when the input is nullable or fill_value is
invalid. -/
theorem shift_spec (input : column_view) (offset : Int)
    (fill_value : scalar) (n : Nat) (hn : input.rows.length = n)
    (hfw : input.dtype.is_fixed_width = true)
    (hft : fill_value.dtype = input.dtype) :
    ∃ out, shift input offset fill_value = .ok out ∧
      out.rows.length = n ∧
      out.nullable = (input.nullable || !fill_value.is_valid) ∧
      ∀ i < n, out.rows.getD i drow =
        if 0 ≤ (i : Int) - offset ∧ (i : Int) - offset < (n : Int) then
          input.rows.getD ((i : Int) - offset).toNat drow
        else (fill_value.value, fill_value.is_valid) := by
  subst hn
  rw [shift, if_neg (by simp [hfw]), if_neg (by simp [hft])]
  refine ⟨_, rfl, by simp, rfl, ?_⟩
  intro i hi
  dsimp only
  rw [getD_range_map _ _ i (by omega) drow]

/-- Claim C9: copy_range_in_place raises a contract violation whenever the
range is malformed (source_begin > source_end, source_begin < 0,
source_end > source.size(), target_begin < 0, or
target_begin + (source_end - source_begin) > target.size()), whenever
source and target types differ, whenever source carries nulls while target
has no validity bitmask, and whenever the type is not fixed-width
(reallocation required). -/
theorem copy_range_in_place_errors (source target : column_view)
    (source_begin source_end target_begin : Int)
    (h : (source_begin > source_end ∨ source_begin < 0 ∨
        source_end > (source.rows.length : Int) ∨ target_begin < 0 ∨
        target_begin + (source_end - source_begin) >
          (target.rows.length : Int)) ∨
      source.dtype ≠ target.dtype ∨
      (has_nulls source = true ∧ target.nullable = false) ∨
      source.dtype.is_fixed_width = false) :
    ∀ res, copy_range_in_place source target source_begin source_end
      target_begin ≠ .ok res := by
  intro res he
  rw [copy_range_in_place] at he
  by_cases h1 : ¬ source.dtype.is_fixed_width
  · rw [if_pos h1] at he
    exact Except.noConfusion he
  · rw [if_neg h1] at he
    by_cases h2 : source_begin > source_end ∨ source_begin < 0 ∨
        source_end > (source.rows.length : Int) ∨ target_begin < 0 ∨
        target_begin + (source_end - source_begin) >
          (target.rows.length : Int)
    · rw [if_pos h2] at he
      exact Except.noConfusion he
    · rw [if_neg h2] at he
      by_cases h3 : source.dtype ≠ target.dtype
      · rw [if_pos h3] at he
        exact Except.noConfusion he
      · rw [if_neg h3] at he
        by_cases h4 : has_nulls source ∧ ¬ target.nullable
        · rw [if_pos h4] at he
          exact Except.noConfusion he
        · rcases h with hrange | htype | hnull | hfw
          · exact h2 hrange
          · exact h3 htype
          · exact h4 ⟨hnull.1, by simp [hnull.2]⟩
          · exact h1 (by simp [hfw])

/-- Claim C10: for the scalar/scalar overload of copy_if_else, the only
validated precondition is that the boolean mask has boolean type (there is
no length or type-agreement check against any column), and the returned
column's length is determined solely by the mask's length, with
output[i] = lhs when mask bit i is valid and true, else rhs. -/
theorem copy_if_else_ss_spec (lhs rhs : scalar) (mask : column_view) :
    ((∃ out, copy_if_else_ss lhs rhs mask = .ok out) ↔
      mask.dtype = DType.BOOL8) ∧
    (mask.dtype = DType.BOOL8 →
      ∃ out, copy_if_else_ss lhs rhs mask = .ok out ∧
        out.rows.length = mask.rows.length ∧
        ∀ i < mask.rows.length, out.rows.getD i drow =
          if mask_sel (mask.rows.getD i (0, false)) then
            (lhs.value, lhs.is_valid)
          else (rhs.value, rhs.is_valid)) := by
  have hok : ∀ hm : mask.dtype = DType.BOOL8,
      ∃ out, copy_if_else_ss lhs rhs mask = .ok out ∧
        out.rows.length = mask.rows.length ∧
        ∀ i < mask.rows.length, out.rows.getD i drow =
          if mask_sel (mask.rows.getD i (0, false)) then
            (lhs.value, lhs.is_valid)
          else (rhs.value, rhs.is_valid) := by
    intro hm
    rw [copy_if_else_ss, if_neg (by simp [hm])]
    refine ⟨_, rfl, by simp, ?_⟩
    intro i hi
    dsimp only
    exact getD_map_of_lt _ _ i hi drow (0, false)
  constructor
  · constructor
    · rintro ⟨out, hout⟩
      by_contra hm
      rw [copy_if_else_ss, if_pos hm] at hout
      exact Except.noConfusion hout
    · intro hm
      obtain ⟨out, hout, -, -⟩ := hok hm
      exact ⟨out, hout⟩
  · exact hok

/-- Witness: split_spec at the spec's round-trip example — a ten-row column
split at boundaries 2, 5, 9. -/
theorem split_spec_witness :
    valid_splits [2, 5, 9] colTen.rows.length ∧
    ((split_column colTen [2, 5, 9]).length = [2, 5, 9].length + 1 ∧
      (∀ j ≤ [2, 5, 9].length,
        (split_column colTen [2, 5, 9]).getD j dcol =
          { dtype := colTen.dtype, nullable := colTen.nullable,
            rows := slice_list colTen.rows
              (if j = 0 then 0 else [2, 5, 9].getD (j - 1) 0)
              (if j = [2, 5, 9].length then colTen.rows.length
                else [2, 5, 9].getD j 0) }) ∧
      ((split_column colTen [2, 5, 9]).map column_view.rows).flatten =
        colTen.rows) :=
  ⟨by decide, split_spec colTen [2, 5, 9] (by decide)⟩

/-- Witness: contiguous_split_equiv at the spec's two-column example, at
partition 1 and column 0. -/
theorem contiguous_split_equiv_witness :
    (uniform_rows [colTen, colFifty] 10 ∧ valid_splits [2, 5, 9] 10 ∧
      1 ≤ [2, 5, 9].length ∧ 0 < [colTen, colFifty].length) ∧
    ((contiguous_split [colTen, colFifty] [2, 5, 9]).length =
        [2, 5, 9].length + 1 ∧
      ((contiguous_split [colTen, colFifty]
          [2, 5, 9]).getD 1 dres).table.getD 0 dcol =
        (split_column ([colTen, colFifty].getD 0 dcol) [2, 5, 9]).getD 1
          dcol) :=
  ⟨⟨by decide, by decide, by decide, by decide⟩,
    contiguous_split_equiv [colTen, colFifty] [2, 5, 9] 10 (by decide)
      (by decide) 1 (by decide) 0 (by decide)⟩

/-- Witness: gather_spec at the spec's example — source 10, 20, 30 with map
-1, 0, 2. -/
theorem gather_spec_witness :
    (uniform_rows [colA] 3 ∧ num_rows [colA] = 3 ∧
      ∀ x ∈ [(-1 : Int), 0, 2], in_bounds x 3 = true) ∧
    (∃ res, gather [colA] [(-1 : Int), 0, 2] false = .ok res ∧
      res.length = [colA].length ∧
      ∀ c < [colA].length,
        (res.getD c dcol).dtype = ([colA].getD c dcol).dtype ∧
        (res.getD c dcol).nullable = ([colA].getD c dcol).nullable ∧
        (res.getD c dcol).rows.length = [(-1 : Int), 0, 2].length ∧
        ∀ i < [(-1 : Int), 0, 2].length,
          (res.getD c dcol).rows.getD i drow =
            ([colA].getD c dcol).rows.getD
              (normalize ([(-1 : Int), 0, 2].getD i 0) 3).toNat drow) :=
  ⟨⟨by decide, by decide, by decide⟩,
    gather_spec [colA] [(-1 : Int), 0, 2] false 3 (by decide) (by decide)
      (by decide)⟩

/-- Witness: gather_scatter_bounds_error — gather map -1, 0, 5 against a
three-row source and scatter map 5 against a five-row target. -/
theorem gather_scatter_bounds_error_witness :
    ((∃ x ∈ [(-1 : Int), 0, 5], in_bounds x (num_rows [colA]) = false) ∧
      (∃ x ∈ [(5 : Int)], in_bounds x (num_rows [colB]) = false)) ∧
    ((∀ res, gather [colA] [(-1 : Int), 0, 5] true ≠ .ok res) ∧
      (∀ res, scatter [colC] [(5 : Int)] [colB] true ≠ .ok res)) :=
  ⟨⟨by decide, by decide⟩,
    gather_scatter_bounds_error [colA] [colC] [colB] [(-1 : Int), 0, 5]
      [(5 : Int)] (by decide) (by decide)⟩

/-- Witness: scatter_spec at the spec's example — target 2, 2, 3, 4, 4,
source 1, 9, map 0, 4. -/
theorem scatter_spec_witness :
    (num_rows [colB] = 5 ∧ uniform_rows [colB] 5 ∧
      ([(0 : Int), 4].map (fun x => normalize x 5)).Nodup ∧
      (∀ x ∈ [(0 : Int), 4], in_bounds x 5 = true) ∧
      [(0 : Int), 4].length ≤ num_rows [colC]) ∧
    (∃ res, scatter [colC] [(0 : Int), 4] [colB] false = .ok res ∧
      res.length = min [colC].length [colB].length ∧
      ∀ c < res.length,
        (res.getD c dcol).rows.length = 5 ∧
        (∀ i < [(0 : Int), 4].length,
          (res.getD c dcol).rows.getD
              (normalize ([(0 : Int), 4].getD i 0) 5).toNat drow =
            ([colC].getD c dcol).rows.getD i drow) ∧
        (∀ j : Nat, j < 5 →
          (∀ i < [(0 : Int), 4].length,
            normalize ([(0 : Int), 4].getD i 0) 5 ≠ (j : Int)) →
          (res.getD c dcol).rows.getD j drow =
            ([colB].getD c dcol).rows.getD j drow)) :=
  ⟨⟨by decide, by decide, by decide, by decide, by decide⟩,
    scatter_spec [colC] [colB] [(0 : Int), 4] false 5 (by decide)
      (by decide) (by decide) (by decide) (by decide)⟩

/-- Witness: boolean_mask_scatter_errors with a mask holding three true
bits against a two-row input. -/
theorem boolean_mask_scatter_errors_witness :
    (count_true maskFive.rows > num_rows [colC] ∨
      maskFive.dtype ≠ DType.BOOL8 ∨
      maskFive.rows.length ≠ num_rows [colB]) ∧
    ∀ res, boolean_mask_scatter [colC] [colB] maskFive ≠ .ok res :=
  ⟨by decide,
    boolean_mask_scatter_errors [colC] [colB] maskFive (by decide)⟩

/-- Witness: copy_if_else_spec at the spec's example — lhs 1, 2, 3, rhs
10, 20, 30, mask true, false, null — together with scalar operands 7, 8. -/
theorem copy_if_else_spec_witness :
    (colL.dtype = colR.dtype ∧ scal7.dtype = colL.dtype ∧
      scal8.dtype = colL.dtype ∧ scal7.dtype = scal8.dtype ∧
      colL.rows.length = 3 ∧ colR.rows.length = 3 ∧
      maskTFN.dtype = DType.BOOL8 ∧ maskTFN.rows.length = 3) ∧
    ((∃ out, copy_if_else_cc colL colR maskTFN = .ok out ∧
        out.rows.length = 3 ∧
        ∀ i < 3, out.rows.getD i drow =
          if mask_sel (maskTFN.rows.getD i (0, false)) then
            colL.rows.getD i drow
          else colR.rows.getD i drow) ∧
      (∃ out, copy_if_else_sc scal7 colR maskTFN = .ok out ∧
        out.rows.length = 3 ∧
        ∀ i < 3, out.rows.getD i drow =
          if mask_sel (maskTFN.rows.getD i (0, false)) then
            (scal7.value, scal7.is_valid)
          else colR.rows.getD i drow) ∧
      (∃ out, copy_if_else_cs colL scal8 maskTFN = .ok out ∧
        out.rows.length = 3 ∧
        ∀ i < 3, out.rows.getD i drow =
          if mask_sel (maskTFN.rows.getD i (0, false)) then
            colL.rows.getD i drow
          else (scal8.value, scal8.is_valid)) ∧
      (∃ out, copy_if_else_ss scal7 scal8 maskTFN = .ok out ∧
        out.rows.length = 3 ∧
        ∀ i < 3, out.rows.getD i drow =
          if mask_sel (maskTFN.rows.getD i (0, false)) then
            (scal7.value, scal7.is_valid)
          else (scal8.value, scal8.is_valid))) :=
  ⟨⟨by decide, by decide, by decide, by decide, by decide, by decide,
      by decide, by decide⟩,
    copy_if_else_spec colL colR maskTFN scal7 scal8 3 (by decide)
      (by decide) (by decide) (by decide) (by decide) (by decide)
      (by decide) (by decide)⟩

/-- Witness: shift_spec at the spec's example — input 0, 1, 2, 3, 4 with
offset 3 and a null fill value. -/
theorem shift_spec_witness :
    (colShift.rows.length = 5 ∧ colShift.dtype.is_fixed_width = true ∧
      scalNull.dtype = colShift.dtype) ∧
    (∃ out, shift colShift 3 scalNull = .ok out ∧
      out.rows.length = 5 ∧
      out.nullable = (colShift.nullable || !scalNull.is_valid) ∧
      ∀ i < 5, out.rows.getD i drow =
        if 0 ≤ (i : Int) - 3 ∧ (i : Int) - 3 < ((5 : Nat) : Int) then
          colShift.rows.getD ((i : Int) - 3).toNat drow
        else (scalNull.value, scalNull.is_valid)) :=
  ⟨⟨by decide, by decide, by decide⟩,
    shift_spec colShift 3 scalNull 5 (by decide) (by decide) (by decide)⟩

/-- Witness: copy_range_in_place_errors at a malformed range
(source_begin 2 exceeds source_end 1). -/
theorem copy_range_in_place_errors_witness :
    (((2 : Int) > 1 ∨ (2 : Int) < 0 ∨
        (1 : Int) > (colA.rows.length : Int) ∨ (0 : Int) < 0 ∨
        (0 : Int) + ((1 : Int) - 2) > (colB.rows.length : Int)) ∨
      colA.dtype ≠ colB.dtype ∨
      (has_nulls colA = true ∧ colB.nullable = false) ∨
      colA.dtype.is_fixed_width = false) ∧
    ∀ res, copy_range_in_place colA colB 2 1 0 ≠ .ok res :=
  ⟨by decide,
    copy_range_in_place_errors colA colB 2 1 0 (by decide)⟩

/-- Witness: copy_if_else_ss_spec with scalar operands of different types,
showing only the mask's type is validated. -/
theorem copy_if_else_ss_spec_witness :
    ((∃ out, copy_if_else_ss scal7 scalF maskTFN = .ok out) ↔
      maskTFN.dtype = DType.BOOL8) ∧
    (maskTFN.dtype = DType.BOOL8 →
      ∃ out, copy_if_else_ss scal7 scalF maskTFN = .ok out ∧
        out.rows.length = maskTFN.rows.length ∧
        ∀ i < maskTFN.rows.length, out.rows.getD i drow =
          if mask_sel (maskTFN.rows.getD i (0, false)) then
            (scal7.value, scal7.is_valid)
          else (scalF.value, scalF.is_valid)) :=
  copy_if_else_ss_spec scal7 scalF maskTFN

end Cudf
